import Mathlib

/-!
Shallow embedding of the Towers of Hanoi browser game (`src/unnamed/part_000`).

Towers are modelled exactly as in the source: each tower is a JS array of
disk sizes with index 0 at the bottom and the top disk at the end of the
array (`push`/`pop` act on the end).  The game state carries the fields of
the source's `gameState` object that the game logic reads or writes
(`startTime`/`timerInterval` drive only the on-screen clock and are not
modelled).  DOM rendering and message display are presentation side
effects and are omitted; every branch of the control flow is kept.
-/

namespace Hanoi

/-- Failure reasons surfaced by `isValidMove` via `showError`. -/
inductive MoveError where
  | emptySource
  | sizeViolation
deriving DecidableEq, Repr

/-- The three towers (`gameState.towers`), each a list with the bottom disk
first and the top disk last, mirroring the JS arrays. -/
structure Towers where
  t0 : List Nat
  t1 : List Nat
  t2 : List Nat
deriving DecidableEq, Repr

def Towers.get (tw : Towers) : Fin 3 → List Nat
  | ⟨0, _⟩ => tw.t0
  | ⟨1, _⟩ => tw.t1
  | ⟨2, _⟩ => tw.t2

def Towers.set (tw : Towers) : Fin 3 → List Nat → Towers
  | ⟨0, _⟩, l => { tw with t0 := l }
  | ⟨1, _⟩, l => { tw with t1 := l }
  | ⟨2, _⟩, l => { tw with t2 := l }

/-- The fields of the source's `gameState` object used by the game logic. -/
structure GameState where
  towers : Towers
  selectedTower : Option (Fin 3)
  moveCount : Nat
  diskCount : Nat
  gameWon : Bool
deriving DecidableEq, Repr

/-- A game state together with the module-level `selectedDiskCount`. -/
structure Session where
  game : GameState
  selectedDiskCount : Nat
deriving DecidableEq, Repr

/-- The loop `for (let i = numDisks; i >= 1; i--) gameState.towers[0].push(i)`
builds `[N, N-1, ..., 1]` (largest at the bottom, smallest on top). -/
def initTower : Nat → List Nat
  | 0 => []
  | n + 1 => (n + 1) :: initTower n

/-- Mirrors `Math.max(CONFIG.MIN_DISKS, Math.min(CONFIG.MAX_DISKS, numDisks))`. -/
def clampDisks (n : Nat) : Nat := max 3 (min 10 n)

/-- Mirrors `initGame`: the game-state part (timer and rendering omitted). -/
def initGame (numDisks : Nat) : GameState :=
  let n := clampDisks numDisks
  { towers := ⟨initTower n, [], []⟩
    selectedTower := none
    moveCount := 0
    diskCount := n
    gameWon := false }

/-- Mirrors `initGame(numDisks, true)`: also syncs `selectedDiskCount`. -/
def initGameSession (numDisks : Nat) : Session :=
  { game := initGame numDisks, selectedDiskCount := clampDisks numDisks }

/-- Mirrors `isValidMove(fromTower, toTower)`; `some e` is the `return false` path
with error `e`, `none` the `return true` path.  The function only reads
the towers. -/
def isValidMove (tw : Towers) (fromTower toTower : Fin 3) : Option MoveError :=
  let fromDisks := tw.get fromTower
  let toDisks := tw.get toTower
  match fromDisks.getLast? with
  | none => some .emptySource
  | some diskToMove =>
    match toDisks.getLast? with
    | none => none
    | some topDiskOnDestination =>
      if topDiskOnDestination < diskToMove then some .sizeViolation else none

/-- Mirrors `checkWin()`: `gameState.towers[2].length === gameState.diskCount`. -/
def checkWin (g : GameState) : Bool :=
  (g.towers.get 2).length == g.diskCount

/-- Mirrors `moveDisk(fromTower, toTower)` followed by the `gameState.gameWon = true`
assignment of `handleWin()` when `checkWin()` holds.  The source only calls
`moveDisk` after `isValidMove` succeeded, so the source tower is non-empty;
the `none` branch is never reached from `handleKeyPress`. -/
def moveDisk (g : GameState) (fromTower toTower : Fin 3) : GameState :=
  match (g.towers.get fromTower).getLast? with
  | none => g
  | some disk =>
    let tw1 := g.towers.set fromTower (g.towers.get fromTower).dropLast
    let tw2 := tw1.set toTower (tw1.get toTower ++ [disk])
    let g1 : GameState := { g with towers := tw2, moveCount := g.moveCount + 1 }
    if checkWin g1 then { g1 with gameWon := true } else g1

/-- One key press, as dispatched by `handleKeyPress` / `handleKeyDown`.
`towerKey i` covers keys 1/2/3 and F/J/K; `cancelKey` is Escape
(`clearSelection`); `otherKey` stands for keys that do not touch the
modelled state (H, T, unmapped keys). -/
inductive Input where
  | towerKey (i : Fin 3)
  | newGame
  | incDisk
  | decDisk
  | cancelKey
  | otherKey
deriving DecidableEq, Repr

/-- Mirrors `handleKeyPress` (plus the Escape branch of `handleKeyDown`), restricted
to the modelled state. -/
def handleKeyPress (s : Session) : Input → Session
  | .newGame => initGameSession s.selectedDiskCount
  | .incDisk =>
    if s.selectedDiskCount < 10 then
      { s with selectedDiskCount := s.selectedDiskCount + 1 }
    else s
  | .decDisk =>
    if 3 < s.selectedDiskCount then
      { s with selectedDiskCount := s.selectedDiskCount - 1 }
    else s
  | .cancelKey => { s with game := { s.game with selectedTower := none } }
  | .otherKey => s
  | .towerKey towerIndex =>
    if s.game.gameWon then s
    else
      match s.game.selectedTower with
      | none =>
        if (s.game.towers.get towerIndex).length = 0 then s
        else { s with game := { s.game with selectedTower := some towerIndex } }
      | some fromTower =>
        let g : GameState := { s.game with selectedTower := none }
        if fromTower = towerIndex then { s with game := g }
        else if isValidMove g.towers fromTower towerIndex = none then
          { s with game := moveDisk g fromTower towerIndex }
        else { s with game := g }

/-- The states produced from `initGame` by any sequence of key presses. -/
inductive Reachable : Session → Prop where
  | init (n : Nat) : Reachable (initGameSession n)
  | step (s : Session) (inp : Input) : Reachable s → Reachable (handleKeyPress s inp)

/-- The canonical 7-move optimal solution of the 3-disk puzzle, as its 14
tower key presses (source then destination for each move). -/
def winningPresses : List Input :=
  [.towerKey 0, .towerKey 2, .towerKey 0, .towerKey 1, .towerKey 2, .towerKey 1,
   .towerKey 0, .towerKey 2, .towerKey 1, .towerKey 0, .towerKey 1, .towerKey 2,
   .towerKey 0, .towerKey 2]

/-- The session reached by playing the optimal 3-disk solution. -/
def wonSession : Session := winningPresses.foldl handleKeyPress (initGameSession 3)

/-- A 3-disk session after one completed move (tower 0 to tower 2). -/
def demoSession : Session :=
  handleKeyPress (handleKeyPress (initGameSession 3) (.towerKey 0)) (.towerKey 2)

/-- A 3-disk session with a pending selection of tower 0. -/
def selectedSession : Session := handleKeyPress (initGameSession 3) (.towerKey 0)

/-! ### Score ledger (`loadHighScores` mapping, `checkAndSaveHighScore`, `mergeHighScores`)

The persisted high-score mapping is a JS object keyed by strings; it is
modelled as a function `String → Option ScoreRec`.  `Date.now()` is passed
in explicitly as `now`.  `localStorage` round-trips are the identity on
this model. -/

/-- A stored score `{ moves, time, timestamp }`.  Imported records may lack
the `timestamp` field (`none`). -/
structure ScoreRec where
  moves : Int
  time : Int
  timestamp : Option Int
deriving DecidableEq, Repr

def Ledger := String → Option ScoreRec

def Ledger.update (L : Ledger) (k : String) (v : ScoreRec) : Ledger :=
  fun q => if q = k then some v else L q

/-- Mirrors `getMinimalMoves(diskCount) = Math.pow(2, diskCount) - 1`. -/
def getMinimalMoves (diskCount : Nat) : Int := (2 : Int) ^ diskCount - 1

/-- The `recordType` strings of `checkAndSaveHighScore`. -/
inductive RecordType where
  | none
  | first
  | moves
  | time
  | perfect
deriving DecidableEq, Repr

/-- The `{ type, isPerfect }` object returned by `checkAndSaveHighScore`. -/
structure RecordOutcome where
  type : RecordType
  isPerfect : Bool
deriving DecidableEq, Repr

/-- Mirrors `checkAndSaveHighScore(diskCount, moves, timeSeconds)`; returns the
updated mapping (written through on any non-`none` outcome) and the
result object. -/
def checkAndSaveHighScore (L : Ledger) (diskCount : Nat) (moves timeSeconds now : Int) :
    Ledger × RecordOutcome :=
  let key := toString diskCount
  let minMoves := getMinimalMoves diskCount
  let isPerfect := moves = minMoves
  match L key with
  | none =>
    (L.update key ⟨moves, timeSeconds, some now⟩,
     ⟨if isPerfect then .perfect else .first, isPerfect⟩)
  | some existing =>
    if moves < existing.moves then
      (L.update key ⟨moves, timeSeconds, some now⟩,
       ⟨if isPerfect then .perfect else .moves, isPerfect⟩)
    else if moves = existing.moves ∧ timeSeconds < existing.time then
      (L.update key { existing with time := timeSeconds, timestamp := some now },
       ⟨.time, isPerfect⟩)
    else (L, ⟨.none, isPerfect⟩)

/-- The `if (!currentScores[k].timestamp) currentScores[k].timestamp = Date.now()`
patch: JS `!t` is true both for a missing timestamp and for `0`. -/
def withTimestamp (r : ScoreRec) (now : Int) : ScoreRec :=
  match r.timestamp with
  | none => { r with timestamp := some now }
  | some t => if t = 0 then { r with timestamp := some now } else r

/-- Loop body of `mergeHighScores` for one `[diskCount, importedScore]`
entry of `Object.entries(importedScores)`. -/
def mergeStep (now : Int) (acc : Ledger) (e : String × ScoreRec) : Ledger :=
  match acc e.1 with
  | none => acc.update e.1 (withTimestamp e.2 now)
  | some current =>
    if e.2.moves < current.moves ∨ (e.2.moves = current.moves ∧ e.2.time < current.time) then
      acc.update e.1 (withTimestamp e.2 now)
    else acc

/-- Mirrors `mergeHighScores(importedScores)` over the current mapping `L`; the
imported mapping is its `Object.entries` list. -/
def mergeHighScores (L : Ledger) (importedScores : List (String × ScoreRec)) (now : Int) :
    Ledger :=
  importedScores.foldl (mergeStep now) L

/-- The "keep better" ordering of `mergeHighScores`: fewer moves wins,
time is the tiebreaker. -/
def strictlyBetter (a b : ScoreRec) : Prop :=
  a.moves < b.moves ∨ (a.moves = b.moves ∧ a.time < b.time)

/-! ### Import payload validation (`validateAndExtractScores`)

The parsed JSON file is modelled by `JVal`; object fields keep insertion
order, which is the order `Object.entries` yields for string keys. -/

inductive JVal where
  | obj (fields : List (String × JVal))
  | num (n : Int)
  | str (s : String)
  | arr (elems : List JVal)
  | jbool (b : Bool)
  | jnull

/-- JS truthiness of the modelled values (numbers are integers here, so the
`NaN` and fractional cases do not arise). -/
def truthy : JVal → Bool
  | .obj _ => true
  | .arr _ => true
  | .num n => !(n == 0)
  | .str s => !(s == "")
  | .jbool b => b
  | .jnull => false

def getField : List (String × JVal) → String → Option JVal
  | [], _ => none
  | (k, v) :: rest, name => if k = name then some v else getField rest name

def isWhitespaceChar (c : Char) : Bool :=
  c == ' ' || c == '\t' || c == '\n' || c == '\r'

/-- The longest leading run of decimal digits, as digit values. -/
def takeDigits : List Char → List Nat
  | [] => []
  | c :: cs => if c.isDigit then (c.toNat - 48) :: takeDigits cs else []

def digitsToNat (ds : List Nat) : Nat := ds.foldl (fun a d => 10 * a + d) 0

/-- JS `parseInt(s)` with the default radix: skip leading whitespace, an
optional sign, then the longest run of decimal digits; `none` models `NaN`.
(`0x`-prefixed hex forms parse differently in JS and are not modelled; no
key in any statement below uses them.) -/
def jsParseInt (s : String) : Option Int :=
  match s.toList.dropWhile isWhitespaceChar with
  | '-' :: rest =>
    match takeDigits rest with
    | [] => none
    | ds => some (-(digitsToNat ds : Int))
  | '+' :: rest =>
    match takeDigits rest with
    | [] => none
    | ds => some ((digitsToNat ds : Int))
  | cs =>
    match takeDigits cs with
    | [] => none
    | ds => some ((digitsToNat ds : Int))

/-- The shape dispatch at the top of `validateAndExtractScores`:
`data.version && data.scores` (truthiness) selects the wrapped form, any
other non-array object is taken as the bare mapping, arrays and
non-objects are rejected.  (A `null` payload would throw in JS and be
caught by the caller; observably the same rejection.) -/
def extractScores (data : JVal) : Option JVal :=
  match data with
  | .obj fields =>
    match getField fields "version", getField fields "scores" with
    | some v, some sc =>
      if truthy v && truthy sc then some sc else some (.obj fields)
    | _, _ => some (.obj fields)
  | _ => none

/-- Mirrors `Object.entries`: fields of an object, index-keyed entries of an array
or a string, `[]` for other primitives. -/
def toEntries : JVal → List (String × JVal)
  | .obj fields => fields
  | .arr elems => elems.enum.map (fun p => (toString p.1, p.2))
  | .str s => s.toList.enum.map (fun p => (toString p.1, .str (toString p.2)))
  | _ => []

/-- The per-entry checks of the validation loop.  A `null` value passes the
JS `typeof value === 'object'` test and then throws on field access; the
exception is caught by the caller and the import abandoned — observably
the same rejection, modelled as `false`. -/
def entryValid (key : String) (value : JVal) : Bool :=
  match jsParseInt key with
  | none => false
  | some diskCount =>
    if diskCount < 3 || 10 < diskCount then false
    else
      match value with
      | .obj fs =>
        match getField fs "moves", getField fs "time" with
        | some (.num m), some (.num t) =>
          if m < getMinimalMoves diskCount.toNat then false
          else if t < 0 then false
          else true
        | _, _ => false
      | _ => false

/-- The `for (const [key, value] of Object.entries(scores))` loop with its
early `return null`. -/
def validateEntries : List (String × JVal) → Bool
  | [] => true
  | (k, v) :: rest => entryValid k v && validateEntries rest

/-- Mirrors `validateAndExtractScores(data)`: `none` is the `return null` path. -/
def validateAndExtractScores (data : JVal) : Option JVal :=
  match extractScores data with
  | none => none
  | some sc => if validateEntries (toEntries sc) then some sc else none

def getNumField (fs : List (String × JVal)) (name : String) : Option Int :=
  match getField fs name with
  | some (.num n) => some n
  | _ => none

/-- The score object of one validated entry, as a `ScoreRec`.  Validated
entries always carry numeric `moves`/`time`, so the `getD 0` defaults are
never used on the path below; a non-numeric `timestamp` is treated as
missing (JS would keep it and `!t` would be false — no claim depends on
this). -/
def toScoreRec (v : JVal) : ScoreRec :=
  match v with
  | .obj fs =>
    { moves := (getNumField fs "moves").getD 0
      time := (getNumField fs "time").getD 0
      timestamp := getNumField fs "timestamp" }
  | _ => ⟨0, 0, none⟩

/-- The import flow of `importHighScores` after the file is parsed: an
invalid payload is rejected wholesale and the mapping is untouched, a
valid one is merged via `mergeHighScores`. -/
def importHighScores (L : Ledger) (data : JVal) (now : Int) : Ledger :=
  match validateAndExtractScores data with
  | none => L
  | some sc =>
    mergeHighScores L ((toEntries sc).map (fun e => (e.1, toScoreRec e.2))) now

/-- An imported entry that passes the per-entry checks of
`validateAndExtractScores`, stated over already-extracted records. -/
def validImportEntry (k : String) (r : ScoreRec) : Bool :=
  match jsParseInt k with
  | none => false
  | some dc =>
    decide (3 ≤ dc) && decide (dc ≤ 10) &&
      decide (getMinimalMoves dc.toNat ≤ r.moves) && decide (0 ≤ r.time)

/-! ### Global leaderboard (`fetchGlobalLeaderboard`,
`validateLeaderboardSubmission`, `checkLeaderboardQualification`) -/

structure LBEntry where
  name : String
  moves : Int
  time : Int
  timestamp : Int
deriving DecidableEq, Repr

def LEADERBOARD_SIZE : Nat := 10

/-- The sort comparator
`(a, b) => a.moves !== b.moves ? a.moves - b.moves : a.time - b.time`
as the total preorder it induces. -/
def lbLe (a b : LBEntry) : Prop :=
  a.moves < b.moves ∨ (a.moves = b.moves ∧ a.time ≤ b.time)

instance : DecidableRel lbLe := fun a b => by
  unfold lbLe; infer_instance

instance : IsTotal LBEntry lbLe := ⟨by intro a b; unfold lbLe; omega⟩

instance : IsTrans LBEntry lbLe := ⟨by intro a b c; unfold lbLe; omega⟩

/-- Mirrors `fetchGlobalLeaderboard(diskCount)`: `fetched = none` models an
unreachable store (Firebase uninitialized, or a thrown fetch error) —
both paths `return []`; `fetched = some data` models a snapshot whose
values are `data`.  JS `Array.prototype.sort` with the comparator above is
modelled by insertion sort under `lbLe` (sorted and permutation-equal;
nothing below depends on the order of ties). -/
def fetchGlobalLeaderboard (fetched : Option (List LBEntry)) : List LBEntry :=
  match fetched with
  | none => []
  | some data => (List.insertionSort lbLe data).take LEADERBOARD_SIZE

/-- The `{ valid, reason }` object of `validateLeaderboardSubmission`. -/
structure SubmissionCheck where
  valid : Bool
  reason : Option String
deriving DecidableEq, Repr

/-- Mirrors `validateLeaderboardSubmission(diskCount, moves, time)`.  The JS
`Number.isInteger` tests are carried by the `Int` type of the model. -/
def validateLeaderboardSubmission (diskCount moves time : Int) : SubmissionCheck :=
  if diskCount < 3 ∨ 10 < diskCount then ⟨false, some "Invalid disk count"⟩
  else if moves < getMinimalMoves diskCount.toNat then ⟨false, some "Invalid move count"⟩
  else if time < 0 ∨ 86400 < time then ⟨false, some "Invalid time"⟩
  else ⟨true, none⟩

/-- The rank loop of `checkLeaderboardQualification`: `rank` starts at 1
and increments until the first entry the submission sorts strictly
before. -/
def findRank (moves time : Int) : List LBEntry → Nat
  | [] => 1
  | score :: rest =>
    if moves < score.moves ∨ (moves = score.moves ∧ time < score.time) then 1
    else findRank moves time rest + 1

/-- The `{ qualifies, rank }` object. -/
structure QualResult where
  qualifies : Bool
  rank : Option Nat
deriving DecidableEq, Repr

/-- Mirrors `checkLeaderboardQualification(diskCount, moves, time)`, with the
awaited fetch result passed in.  The `getLast?` fallback branch is
unreachable: the leaderboard has `≥ LEADERBOARD_SIZE > 0` entries there. -/
def checkLeaderboardQualification (diskCount moves time : Int)
    (fetched : Option (List LBEntry)) : QualResult :=
  if (validateLeaderboardSubmission diskCount moves time).valid = false then
    ⟨false, none⟩
  else
    let leaderboard := fetchGlobalLeaderboard fetched
    if leaderboard.length < LEADERBOARD_SIZE then
      ⟨true, some (leaderboard.length + 1)⟩
    else
      match leaderboard.getLast? with
      | none => ⟨false, none⟩
      | some worst =>
        if moves < worst.moves ∨ (moves = worst.moves ∧ time < worst.time) then
          ⟨true, some (findRank moves time leaderboard)⟩
        else ⟨false, none⟩

/-! ### Invariants of the game state machine -/

/-- All disks in play, as a multiset (union of the three towers). -/
def towersMset (tw : Towers) : Multiset Nat :=
  (tw.t0 : Multiset Nat) + (tw.t1 : Multiset Nat) + (tw.t2 : Multiset Nat)

/-- Every tower is strictly decreasing along the array, i.e. strictly
increasing from top (end) to bottom (front). -/
def towersSorted (tw : Towers) : Prop :=
  tw.t0.Pairwise (· > ·) ∧ tw.t1.Pairwise (· > ·) ∧ tw.t2.Pairwise (· > ·)

/-- The state invariant carried through every key press. -/
def stateInv (g : GameState) : Prop :=
  towersMset g.towers = (initTower g.diskCount : Multiset Nat) ∧
  towersSorted g.towers ∧
  3 ≤ g.diskCount ∧
  (g.gameWon = true ↔ (g.towers.get 2).length = g.diskCount) ∧
  (g.gameWon = true → g.selectedTower = none)

lemma mem_initTower {x n : Nat} : x ∈ initTower n ↔ 1 ≤ x ∧ x ≤ n := by
  induction n with
  | zero => simp [initTower]; omega
  | succ n ih => simp [initTower, ih]; omega

lemma initTower_pairwise (n : Nat) : (initTower n).Pairwise (· > ·) := by
  induction n with
  | zero => simp [initTower]
  | succ n ih =>
    refine List.pairwise_cons.2 ⟨?_, ih⟩
    intro a ha
    have := mem_initTower.1 ha
    omega

lemma initTower_nodup (n : Nat) : (initTower n).Nodup :=
  (initTower_pairwise n).imp (fun h => Nat.ne_of_gt h)

lemma initTower_length (n : Nat) : (initTower n).length = n := by
  induction n with
  | zero => rfl
  | succ n ih => simp [initTower, ih]

lemma get_set_self (tw : Towers) (i : Fin 3) (l : List Nat) :
    (tw.set i l).get i = l := by
  fin_cases i <;> rfl

lemma get_set_ne (tw : Towers) {i j : Fin 3} (l : List Nat) (h : j ≠ i) :
    (tw.set i l).get j = tw.get j := by
  fin_cases i <;> fin_cases j <;> first
    | rfl
    | exact absurd rfl h

lemma towersSorted_get {tw : Towers} (h : towersSorted tw) (i : Fin 3) :
    (tw.get i).Pairwise (· > ·) := by
  fin_cases i
  · exact h.1
  · exact h.2.1
  · exact h.2.2

lemma mem_towersMset_of_mem_get {tw : Towers} {i : Fin 3} {x : Nat}
    (h : x ∈ tw.get i) : x ∈ towersMset tw := by
  fin_cases i <;> simp [towersMset, Towers.get] at h ⊢ <;> tauto

/-- Disjointness of distinct towers, from `Nodup` of the union. -/
lemma disjoint_get {tw : Towers} (hn : (tw.t0 ++ tw.t1 ++ tw.t2).Nodup)
    {i j : Fin 3} (hij : i ≠ j) {x : Nat}
    (hi : x ∈ tw.get i) (hj : x ∈ tw.get j) : False := by
  simp [List.nodup_append, List.disjoint_left] at hn
  obtain ⟨h0, ⟨h1, h2, h12⟩, h02⟩ := hn
  fin_cases i <;> fin_cases j <;>
    simp [Towers.get] at hi hj <;>
    first
      | exact absurd rfl hij
      | exact (h02 hi).1 hj
      | exact (h02 hi).2 hj
      | exact (h02 hj).1 hi
      | exact (h02 hj).2 hi
      | exact h12 hi hj
      | exact h12 hj hi

/-- In a strictly decreasing list the last element is the minimum. -/
lemma le_of_mem_of_getLast? {l : List Nat} (h : l.Pairwise (· > ·))
    {top x : Nat} (hl : l.getLast? = some top) (hx : x ∈ l) : top ≤ x := by
  induction l with
  | nil => cases hx
  | cons a l ih =>
    cases l with
    | nil =>
      simp at hl hx
      omega
    | cons b l2 =>
      rw [List.getLast?_cons_cons] at hl
      rcases List.mem_cons.1 hx with rfl | hx2
      · have htop : top ∈ b :: l2 := by
          rcases List.mem_getLast?_eq_getLast hl with ⟨hne, heq⟩
          exact heq ▸ List.getLast_mem hne
        have := (List.pairwise_cons.1 h).1 top htop
        omega
      · exact ih (List.pairwise_cons.1 h).2 hl hx2

lemma pairwise_concat {l : List Nat} {d : Nat} (h : l.Pairwise (· > ·))
    (hd : ∀ x ∈ l, d < x) : (l ++ [d]).Pairwise (· > ·) := by
  refine List.pairwise_append.2 ⟨h, List.pairwise_singleton _ _, ?_⟩
  intro x hx y hy
  simp at hy
  subst hy
  exact hd x hx

/-- Moving the top disk `d` from tower `f` to tower `t` leaves the multiset
of disks unchanged. -/
lemma towersMset_move (tw : Towers) (f t : Fin 3) (hft : f ≠ t) (d : Nat)
    (hsplit : tw.get f = (tw.get f).dropLast ++ [d]) :
    towersMset ((tw.set f (tw.get f).dropLast).set t
      ((tw.set f (tw.get f).dropLast).get t ++ [d])) = towersMset tw := by
  fin_cases f <;> fin_cases t <;>
    first
      | exact absurd rfl hft
      | (simp only [Towers.get, Towers.set, towersMset] at hsplit ⊢
         conv_rhs => rw [hsplit]
         simp only [← Multiset.coe_add]
         abel)

lemma mem_of_getLast?_eq {α : Type} {l : List α} {a : α}
    (h : l.getLast? = some a) : a ∈ l := by
  rcases List.mem_getLast?_eq_getLast h with ⟨hne, rfl⟩
  exact List.getLast_mem hne

/-- Lemma: `isValidMove` succeeds iff the source has a top disk `d` and the
destination is empty or its top disk is at least `d`. -/
lemma isValidMove_none_iff {tw : Towers} {f t : Fin 3} :
    isValidMove tw f t = none ↔
      ∃ d, (tw.get f).getLast? = some d ∧
        ((tw.get t).getLast? = none ∨
         ∃ top, (tw.get t).getLast? = some top ∧ d ≤ top) := by
  cases hf : (tw.get f).getLast? with
  | none => simp [isValidMove, hf]
  | some d =>
    cases ht : (tw.get t).getLast? with
    | none => simp [isValidMove, hf, ht]
    | some top =>
      by_cases hlt : top < d <;> simp [isValidMove, hf, ht, hlt] <;> omega

/-- Lemma: `isValidMove` reports `emptySource` iff the source tower is empty. -/
lemma isValidMove_emptySource_iff {tw : Towers} {f t : Fin 3} :
    isValidMove tw f t = some .emptySource ↔ tw.get f = [] := by
  cases hf : (tw.get f).getLast? with
  | none => simp [isValidMove, hf, List.getLast?_eq_none_iff.1 hf]
  | some d =>
    have : tw.get f ≠ [] := by
      intro he
      rw [he] at hf
      simp at hf
    cases ht : (tw.get t).getLast? with
    | none => simp [isValidMove, hf, ht, this]
    | some top =>
      by_cases hlt : top < d <;> simp [isValidMove, hf, ht, hlt, this]

/-- Lemma: `isValidMove` reports `sizeViolation` iff both towers are non-empty and
the destination's top disk is smaller than the source's top disk. -/
lemma isValidMove_sizeViolation_iff {tw : Towers} {f t : Fin 3} :
    isValidMove tw f t = some .sizeViolation ↔
      ∃ d top, (tw.get f).getLast? = some d ∧
        (tw.get t).getLast? = some top ∧ top < d := by
  cases hf : (tw.get f).getLast? with
  | none => simp [isValidMove, hf]
  | some d =>
    cases ht : (tw.get t).getLast? with
    | none => simp [isValidMove, hf, ht]
    | some top =>
      by_cases hlt : top < d <;> simp [isValidMove, hf, ht, hlt]

/-- Moving a disk that is smaller than everything on the destination keeps
every tower strictly decreasing. -/
lemma towersSorted_move {tw : Towers} {f t : Fin 3} (hft : f ≠ t) {d : Nat}
    (hsort : towersSorted tw)
    (hdlt : ∀ x ∈ tw.get t, d < x) :
    towersSorted ((tw.set f (tw.get f).dropLast).set t
      ((tw.set f (tw.get f).dropLast).get t ++ [d])) := by
  have hget : ∀ i : Fin 3,
      (((tw.set f (tw.get f).dropLast).set t
        ((tw.set f (tw.get f).dropLast).get t ++ [d])).get i).Pairwise (· > ·) := by
    intro i
    by_cases hit : i = t
    · subst hit
      rw [get_set_self, get_set_ne _ _ hft.symm]
      exact pairwise_concat (towersSorted_get hsort i) hdlt
    · rw [get_set_ne _ _ hit]
      by_cases hif : i = f
      · subst hif
        rw [get_set_self]
        exact ((towersSorted_get hsort i).sublist (List.dropLast_sublist _))
      · rw [get_set_ne _ _ hif]
        exact towersSorted_get hsort i
  exact ⟨hget 0, hget 1, hget 2⟩

/-- The union of the towers, as a list, is `Nodup` under the multiset
invariant. -/
lemma towersList_nodup {tw : Towers} {n : Nat}
    (hm : towersMset tw = (initTower n : Multiset Nat)) :
    (tw.t0 ++ tw.t1 ++ tw.t2).Nodup := by
  have hcoe : ((tw.t0 ++ tw.t1 ++ tw.t2 : List Nat) : Multiset Nat)
      = (initTower n : Multiset Nat) := by
    rw [← hm]
    simp [towersMset, ← Multiset.coe_add, add_assoc]
  rw [← Multiset.coe_nodup, hcoe, Multiset.coe_nodup]
  exact initTower_nodup n

/-- A validated move preserves the full state invariant. -/
lemma stateInv_moveDisk {g : GameState} {f t : Fin 3} (hft : f ≠ t)
    (hv : isValidMove g.towers f t = none)
    (hw : g.gameWon = false) (hsel : g.selectedTower = none)
    (hinv : stateInv g) :
    stateInv (moveDisk g f t) := by
  obtain ⟨hm, hs, hN, hwin, hws⟩ := hinv
  obtain ⟨d, hd, hto⟩ := isValidMove_none_iff.1 hv
  have hsplit : g.towers.get f = (g.towers.get f).dropLast ++ [d] :=
    (List.dropLast_append_getLast? d hd).symm
  have hnodup := towersList_nodup hm
  have hdlt : ∀ x ∈ g.towers.get t, d < x := by
    rcases hto with hempty | ⟨top, htop, hle⟩
    · intro x hx
      rw [List.getLast?_eq_none_iff.1 hempty] at hx
      cases hx
    · intro x hx
      have h1 : top ≤ x :=
        le_of_mem_of_getLast? (towersSorted_get hs t) htop hx
      have h2 : d ≠ top := by
        intro he
        exact disjoint_get hnodup hft (mem_of_getLast?_eq hd)
          (he ▸ mem_of_getLast?_eq htop)
      omega
  have hm2 := (towersMset_move g.towers f t hft d hsplit).trans hm
  have hs2 := towersSorted_move hft hs hdlt
  simp only [moveDisk, hd]
  split
  · rename_i hcw
    refine ⟨hm2, hs2, hN, ?_, ?_⟩
    · simp only [checkWin, beq_iff_eq] at hcw
      simpa using hcw
    · intro _
      exact hsel
  · rename_i hcw
    refine ⟨hm2, hs2, hN, ?_, ?_⟩
    · simp only [checkWin, beq_iff_eq] at hcw
      constructor
      · intro hwt
        rw [hw] at hwt
        cases hwt
      · intro hlen
        exact absurd (by simpa using hlen) hcw
    · intro hwt
      rw [hw] at hwt
      cases hwt

lemma stateInv_init (n : Nat) : stateInv (initGame n) := by
  refine ⟨?_, ⟨initTower_pairwise _, List.Pairwise.nil, List.Pairwise.nil⟩, ?_, ?_, ?_⟩
  · simp [initGame, towersMset]
  · exact le_max_left 3 _
  · have h3 : 3 ≤ clampDisks n := le_max_left 3 _
    simp only [initGame, Towers.get]
    constructor
    · intro h
      cases h
    · intro h
      simp at h
      omega
  · intro h
    cases h

lemma stateInv_step {s : Session} (h : stateInv s.game) (inp : Input) :
    stateInv (handleKeyPress s inp).game := by
  obtain ⟨hm, hs, hN, hwin, hws⟩ := h
  cases inp with
  | newGame => exact stateInv_init _
  | incDisk =>
    simp only [handleKeyPress]
    split <;> exact ⟨hm, hs, hN, hwin, hws⟩
  | decDisk =>
    simp only [handleKeyPress]
    split <;> exact ⟨hm, hs, hN, hwin, hws⟩
  | otherKey => exact ⟨hm, hs, hN, hwin, hws⟩
  | cancelKey => exact ⟨hm, hs, hN, hwin, fun _ => rfl⟩
  | towerKey i =>
    by_cases hw : s.game.gameWon = true
    · simp only [handleKeyPress, if_pos hw]
      exact ⟨hm, hs, hN, hwin, hws⟩
    · have hwf : s.game.gameWon = false := by
        cases hgw : s.game.gameWon
        · rfl
        · exact absurd hgw hw
      cases hsel : s.game.selectedTower with
      | none =>
        simp only [handleKeyPress, if_neg hw, hsel]
        split
        · exact ⟨hm, hs, hN, hwin, hws⟩
        · exact ⟨hm, hs, hN, hwin, fun hwt => absurd hwt hw⟩
      | some f =>
        simp only [handleKeyPress, if_neg hw, hsel]
        have hg : stateInv { s.game with selectedTower := none } :=
          ⟨hm, hs, hN, hwin, fun _ => rfl⟩
        by_cases hfi : f = i
        · simp only [if_pos hfi]
          exact hg
        · simp only [if_neg hfi]
          split
          · rename_i hv
            exact stateInv_moveDisk hfi hv hwf rfl hg
          · exact hg

/-- The invariant holds in every reachable state. -/
lemma reachable_stateInv {s : Session} (h : Reachable s) : stateInv s.game := by
  induction h with
  | init n => exact stateInv_init n
  | step s inp _ ih => exact stateInv_step ih inp

lemma reachable_foldl {s : Session} (h : Reachable s) (l : List Input) :
    Reachable (l.foldl handleKeyPress s) := by
  induction l generalizing s with
  | nil => exact h
  | cons a l ih => exact ih (Reachable.step s a h)

lemma handleKeyPress_towerKey_of_won {s : Session} (hw : s.game.gameWon = true)
    (i : Fin 3) : handleKeyPress s (.towerKey i) = s := by
  simp [handleKeyPress, hw]

lemma foldl_towerKeys_of_won {s : Session} (hw : s.game.gameWon = true)
    (l : List (Fin 3)) :
    l.foldl (fun st i => handleKeyPress st (.towerKey i)) s = s := by
  induction l with
  | nil => rfl
  | cons a l ih => simpa [handleKeyPress_towerKey_of_won hw] using ih

lemma towersList_coe (tw : Towers) :
    ((tw.t0 ++ tw.t1 ++ tw.t2 : List Nat) : Multiset Nat) = towersMset tw := by
  simp [towersMset, ← Multiset.coe_add, add_assoc]

/-! ### Claim theorems -/

/-- C1: in every reachable state the three towers partition `{1, …, N}`
(`N` the state's `diskCount`): together they hold each of `1..N` exactly
once, and along every tower the sizes strictly decrease from bottom
(index 0) towards the top (end of the array), i.e. strictly increase from
top to bottom, the top disk being the smallest on its tower. -/
theorem C1_reachable_partition_sorted {s : Session} (h : Reachable s) :
    ((s.game.towers.t0 ++ s.game.towers.t1 ++ s.game.towers.t2).Nodup ∧
     ∀ k : Nat,
       k ∈ s.game.towers.t0 ++ s.game.towers.t1 ++ s.game.towers.t2 ↔
         1 ≤ k ∧ k ≤ s.game.diskCount) ∧
    s.game.towers.t0.Pairwise (· > ·) ∧
    s.game.towers.t1.Pairwise (· > ·) ∧
    s.game.towers.t2.Pairwise (· > ·) := by
  obtain ⟨hm, hs, hN, _, _⟩ := reachable_stateInv h
  refine ⟨⟨towersList_nodup hm, ?_⟩, hs.1, hs.2.1, hs.2.2⟩
  intro k
  rw [← Multiset.mem_coe, towersList_coe, hm, Multiset.mem_coe, mem_initTower]

/-- Witness for C1 at a concrete reachable state (one move played). -/
theorem C1_reachable_partition_sorted_witness :
    ((demoSession.game.towers.t0 ++ demoSession.game.towers.t1 ++
        demoSession.game.towers.t2).Nodup ∧
     ∀ k : Nat,
       k ∈ demoSession.game.towers.t0 ++ demoSession.game.towers.t1 ++
           demoSession.game.towers.t2 ↔
         1 ≤ k ∧ k ≤ demoSession.game.diskCount) ∧
    demoSession.game.towers.t0.Pairwise (· > ·) ∧
    demoSession.game.towers.t1.Pairwise (· > ·) ∧
    demoSession.game.towers.t2.Pairwise (· > ·) :=
  C1_reachable_partition_sorted
    (Reachable.step _ _ (Reachable.step _ _ (Reachable.init 3)))

/-- C2: for distinct towers, `isValidMove` fails with `emptySource` exactly
when the source tower is empty, fails with `sizeViolation` exactly when
the destination is non-empty with a top disk smaller than the source's top
disk, and succeeds whenever the source has a top disk and the destination
is empty or its top disk is larger.  The embedded validator is a pure
function of the towers and returns only the verdict, so it never mutates
them. -/
theorem C2_validator_classification (tw : Towers) (f t : Fin 3) (hft : f ≠ t) :
    (isValidMove tw f t = some .emptySource ↔ tw.get f = []) ∧
    (isValidMove tw f t = some .sizeViolation ↔
      ∃ d top, (tw.get f).getLast? = some d ∧
        (tw.get t).getLast? = some top ∧ top < d) ∧
    (∀ d, (tw.get f).getLast? = some d →
      (tw.get t = [] ∨ ∃ top, (tw.get t).getLast? = some top ∧ d < top) →
      isValidMove tw f t = none) := by
  refine ⟨isValidMove_emptySource_iff, isValidMove_sizeViolation_iff, ?_⟩
  intro d hd hto
  apply isValidMove_none_iff.2
  refine ⟨d, hd, ?_⟩
  rcases hto with he | ⟨top, htop, hlt⟩
  · exact Or.inl (by rw [he]; rfl)
  · exact Or.inr ⟨top, htop, le_of_lt hlt⟩

/-- Witness for C2 on concrete towers. -/
theorem C2_validator_classification_witness :
    ((0 : Fin 3) ≠ 1) ∧
    ((isValidMove ⟨[3], [2], [1]⟩ 0 1 = some .emptySource ↔
        Towers.get ⟨[3], [2], [1]⟩ 0 = []) ∧
     (isValidMove ⟨[3], [2], [1]⟩ 0 1 = some .sizeViolation ↔
       ∃ d top, (Towers.get ⟨[3], [2], [1]⟩ 0).getLast? = some d ∧
         (Towers.get ⟨[3], [2], [1]⟩ 1).getLast? = some top ∧ top < d) ∧
     (∀ d, (Towers.get ⟨[3], [2], [1]⟩ 0).getLast? = some d →
       (Towers.get ⟨[3], [2], [1]⟩ 1 = [] ∨
        ∃ top, (Towers.get ⟨[3], [2], [1]⟩ 1).getLast? = some top ∧ d < top) →
       isValidMove ⟨[3], [2], [1]⟩ 0 1 = none)) :=
  ⟨by decide, C2_validator_classification ⟨[3], [2], [1]⟩ 0 1 (by decide)⟩

/-- C3: a legal move from `f` to `t` removes the top disk of `f` (length
drops by exactly 1), appends it as the new top of `t` (length grows by
exactly 1), increments `moveCount` by exactly 1, and leaves the third
tower unchanged. -/
theorem C3_legal_move_effects (g : GameState) (f t : Fin 3) (hft : f ≠ t)
    (hv : isValidMove g.towers f t = none) :
    ∃ d, (g.towers.get f).getLast? = some d ∧
      (g.towers.get f).length = ((moveDisk g f t).towers.get f).length + 1 ∧
      ((moveDisk g f t).towers.get t).length = (g.towers.get t).length + 1 ∧
      ((moveDisk g f t).towers.get t).getLast? = some d ∧
      (moveDisk g f t).moveCount = g.moveCount + 1 ∧
      ∀ j : Fin 3, j ≠ f → j ≠ t → (moveDisk g f t).towers.get j = g.towers.get j := by
  obtain ⟨d, hd, -⟩ := isValidMove_none_iff.1 hv
  have hne : g.towers.get f ≠ [] := by
    intro he
    rw [he] at hd
    simp at hd
  have hpos : 0 < (g.towers.get f).length := List.length_pos.2 hne
  refine ⟨d, hd, ?_⟩
  simp only [moveDisk, hd]
  split <;>
    refine ⟨?_, ?_, ?_, rfl, ?_⟩ <;>
    first
      | (rw [get_set_ne _ _ hft, get_set_self, List.length_dropLast]
         omega)
      | (rw [get_set_self, get_set_ne _ _ hft.symm]
         simp)
      | (intro j hjf hjt
         rw [get_set_ne _ _ hjt, get_set_ne _ _ hjf])

/-- Witness for C3 on a concrete legal move. -/
theorem C3_legal_move_effects_witness :
    ((0 : Fin 3) ≠ 1) ∧ isValidMove (initGame 3).towers 0 1 = none ∧
    (∃ d, ((initGame 3).towers.get 0).getLast? = some d ∧
      ((initGame 3).towers.get 0).length =
        ((moveDisk (initGame 3) 0 1).towers.get 0).length + 1 ∧
      ((moveDisk (initGame 3) 0 1).towers.get 1).length =
        ((initGame 3).towers.get 1).length + 1 ∧
      ((moveDisk (initGame 3) 0 1).towers.get 1).getLast? = some d ∧
      (moveDisk (initGame 3) 0 1).moveCount = (initGame 3).moveCount + 1 ∧
      ∀ j : Fin 3, j ≠ 0 → j ≠ 1 →
        (moveDisk (initGame 3) 0 1).towers.get j = (initGame 3).towers.get j) :=
  ⟨by decide, by decide, C3_legal_move_effects (initGame 3) 0 1 (by decide) (by decide)⟩

/-- C4: in every reachable state the win flag is set iff tower 2 holds
exactly `diskCount` disks, and once won, any further sequence of
tower-selection/move key presses leaves the session (towers, selection,
move count) completely unchanged. -/
theorem C4_win_iff_and_terminal {s : Session} (h : Reachable s) :
    (s.game.gameWon = true ↔ (s.game.towers.get 2).length = s.game.diskCount) ∧
    (s.game.gameWon = true →
      ∀ l : List (Fin 3),
        l.foldl (fun st i => handleKeyPress st (.towerKey i)) s = s) := by
  obtain ⟨-, -, -, hwin, -⟩ := reachable_stateInv h
  exact ⟨hwin, fun hw l => foldl_towerKeys_of_won hw l⟩

/-- Witness for C4 at the concrete won session. -/
theorem C4_win_iff_and_terminal_witness :
    wonSession.game.gameWon = true ∧
    ((wonSession.game.gameWon = true ↔
       (wonSession.game.towers.get 2).length = wonSession.game.diskCount) ∧
     (wonSession.game.gameWon = true →
       ∀ l : List (Fin 3),
         l.foldl (fun st i => handleKeyPress st (.towerKey i)) wonSession = wonSession)) :=
  ⟨by decide,
   C4_win_iff_and_terminal (reachable_foldl (Reachable.init 3) winningPresses)⟩

/-- C10: in every reachable state with a pending selection of pole `i`,
pressing `i` again only clears the selection: the resulting session is the
same one with `selectedTower := none`, so the towers and `moveCount` (and
the selected disk count) are untouched. -/
theorem C10_same_pole_cancel {s : Session} {i : Fin 3} (h : Reachable s)
    (hsel : s.game.selectedTower = some i) :
    handleKeyPress s (.towerKey i) =
      { s with game := { s.game with selectedTower := none } } := by
  have hinv := reachable_stateInv h
  have hw : ¬ s.game.gameWon = true := by
    intro hgw
    rw [hinv.2.2.2.2 hgw] at hsel
    cases hsel
  simp [handleKeyPress, hw, hsel]

/-- Witness for C10 at a concrete session with tower 0 selected. -/
theorem C10_same_pole_cancel_witness :
    selectedSession.game.selectedTower = some 0 ∧
    handleKeyPress selectedSession (.towerKey 0) =
      { selectedSession with
        game := { selectedSession.game with selectedTower := none } } :=
  ⟨by decide,
   C10_same_pole_cancel (Reachable.step _ _ (Reachable.init 3)) (by decide)⟩

/-- C5: `checkAndSaveHighScore` classifies a completed run exactly as
specified: no stored record → create it, `perfect` when the run is
minimal else `first`; strictly fewer moves → overwrite moves/time/timestamp,
`perfect` when minimal else `moves`; equal moves and strictly lower time →
overwrite time/timestamp only, `time`; otherwise `none` with the mapping
untouched. -/
theorem C5_record_outcome (L : Ledger) (dc : Nat) (m t now : Int) :
    (L (toString dc) = none →
      (checkAndSaveHighScore L dc m t now).1 =
        L.update (toString dc) ⟨m, t, some now⟩ ∧
      (checkAndSaveHighScore L dc m t now).2.type =
        (if m = getMinimalMoves dc then RecordType.perfect else RecordType.first)) ∧
    (∀ cur, L (toString dc) = some cur →
      (m < cur.moves →
        (checkAndSaveHighScore L dc m t now).1 =
          L.update (toString dc) ⟨m, t, some now⟩ ∧
        (checkAndSaveHighScore L dc m t now).2.type =
          (if m = getMinimalMoves dc then RecordType.perfect else RecordType.moves)) ∧
      (m = cur.moves → t < cur.time →
        (checkAndSaveHighScore L dc m t now).1 =
          L.update (toString dc) { cur with time := t, timestamp := some now } ∧
        (checkAndSaveHighScore L dc m t now).2.type = RecordType.time) ∧
      (¬ m < cur.moves → ¬ (m = cur.moves ∧ t < cur.time) →
        (checkAndSaveHighScore L dc m t now).1 = L ∧
        (checkAndSaveHighScore L dc m t now).2.type = RecordType.none)) := by
  cases hL : L (toString dc) with
  | none =>
    refine ⟨fun _ => ?_, fun cur hcur => ?_⟩
    · constructor <;> simp [checkAndSaveHighScore, hL]
    · cases hcur
  | some cur0 =>
    refine ⟨fun hn => ?_, fun cur hcur => ?_⟩
    · cases hn
    · injection hcur with hcur
      subst hcur
      refine ⟨fun hlt => ?_, fun heq hts => ?_, fun hnlt hno => ?_⟩
      · constructor <;> simp [checkAndSaveHighScore, hL, if_pos hlt]
      · have hnlt : ¬ m < cur0.moves := by omega
        constructor <;>
          simp [checkAndSaveHighScore, hL, if_neg hnlt, if_pos (And.intro heq hts)]
      · constructor <;> simp [checkAndSaveHighScore, hL, if_neg hnlt, if_neg hno]

/-- Witness for C5: first completion of the 3-disk puzzle in 7 moves. -/
theorem C5_record_outcome_witness :
    ((fun _ => none : Ledger) "3" = none) ∧
    ((checkAndSaveHighScore (fun _ => none) 3 7 45 100).1 =
      Ledger.update (fun _ => none) "3" ⟨7, 45, some 100⟩ ∧
     (checkAndSaveHighScore (fun _ => none) 3 7 45 100).2.type =
      (if (7 : Int) = getMinimalMoves 3 then RecordType.perfect else RecordType.first)) :=
  ⟨rfl, (C5_record_outcome (fun _ => none) 3 7 45 100).1 rfl⟩

lemma update_self (L : Ledger) (k : String) (v : ScoreRec) :
    L.update k v k = some v := by
  simp [Ledger.update]

lemma update_ne (L : Ledger) {k q : String} (v : ScoreRec) (h : q ≠ k) :
    L.update k v q = L q := by
  simp [Ledger.update, h]

lemma withTimestamp_moves (r : ScoreRec) (now : Int) :
    (withTimestamp r now).moves = r.moves := by
  cases r with
  | mk m t ts =>
    cases ts with
    | none => rfl
    | some x =>
      simp only [withTimestamp]
      split <;> rfl

lemma withTimestamp_time (r : ScoreRec) (now : Int) :
    (withTimestamp r now).time = r.time := by
  cases r with
  | mk m t ts =>
    cases ts with
    | none => rfl
    | some x =>
      simp only [withTimestamp]
      split <;> rfl

lemma strictlyBetter_withTimestamp_right (a b : ScoreRec) (now : Int) :
    strictlyBetter a (withTimestamp b now) ↔ strictlyBetter a b := by
  simp [strictlyBetter, withTimestamp_moves, withTimestamp_time]

lemma not_strictlyBetter_self (a : ScoreRec) : ¬ strictlyBetter a a := by
  simp [strictlyBetter]

/-- Once a key holds a record, later merge steps keep it or replace it by a
strictly better one. -/
lemma foldl_mergeStep_keeps (now : Int) (M : List (String × ScoreRec)) :
    ∀ (acc : Ledger) (k : String) (r : ScoreRec), acc k = some r →
      ∃ r2, (M.foldl (mergeStep now) acc) k = some r2 ∧
        (r2 = r ∨ strictlyBetter r2 r) := by
  induction M with
  | nil => exact fun acc k r hr => ⟨r, hr, Or.inl rfl⟩
  | cons e M ih =>
    intro acc k r hr
    rw [List.foldl_cons]
    by_cases hk : e.1 = k
    · subst hk
      have hstep : mergeStep now acc e e.1 = some r ∨
          (mergeStep now acc e e.1 = some (withTimestamp e.2 now) ∧
            strictlyBetter e.2 r) := by
        simp only [mergeStep, hr]
        by_cases hb : e.2.moves < r.moves ∨ e.2.moves = r.moves ∧ e.2.time < r.time
        · rw [if_pos hb]
          exact Or.inr ⟨update_self _ _ _, hb⟩
        · rw [if_neg hb]
          exact Or.inl hr
      rcases hstep with h1 | ⟨h1, hb⟩
      · exact ih _ _ _ h1
      · obtain ⟨r2, h2, h3⟩ := ih _ _ _ h1
        refine ⟨r2, h2, Or.inr ?_⟩
        have hb2 : strictlyBetter (withTimestamp e.2 now) r := by
          simpa [strictlyBetter, withTimestamp_moves, withTimestamp_time] using hb
        rcases h3 with rfl | h3
        · exact hb2
        · simp only [strictlyBetter] at hb2 h3 ⊢
          omega
    · have h1 : mergeStep now acc e k = some r := by
        cases hacc : acc e.1 with
        | none =>
          simp only [mergeStep, hacc]
          rw [update_ne _ _ (fun he => hk he.symm)]
          exact hr
        | some cur =>
          simp only [mergeStep, hacc]
          by_cases hb : e.2.moves < cur.moves ∨ e.2.moves = cur.moves ∧ e.2.time < cur.time
          · rw [if_pos hb, update_ne _ _ (fun he => hk he.symm)]
            exact hr
          · rw [if_neg hb]
            exact hr
      exact ih _ _ _ h1

/-- After one merge, no imported entry is strictly better than what its key
holds. -/
lemma merge_not_better (L : Ledger) (M : List (String × ScoreRec)) (now : Int) :
    ∀ e ∈ M, ∃ r, (mergeHighScores L M now) e.1 = some r ∧
      ¬ strictlyBetter e.2 r := by
  induction M generalizing L with
  | nil => intro e he; cases he
  | cons a M ih =>
    intro e he
    rcases List.mem_cons.1 he with rfl | he2
    · have hstep : ∃ r0, mergeStep now L e e.1 = some r0 ∧
          ¬ strictlyBetter e.2 r0 := by
        cases hL : L e.1 with
        | none =>
          simp only [mergeStep, hL]
          refine ⟨withTimestamp e.2 now, update_self _ _ _, ?_⟩
          rw [strictlyBetter_withTimestamp_right]
          exact not_strictlyBetter_self _
        | some cur =>
          simp only [mergeStep, hL]
          by_cases hb : e.2.moves < cur.moves ∨ e.2.moves = cur.moves ∧ e.2.time < cur.time
          · rw [if_pos hb]
            refine ⟨withTimestamp e.2 now, update_self _ _ _, ?_⟩
            rw [strictlyBetter_withTimestamp_right]
            exact not_strictlyBetter_self _
          · rw [if_neg hb]
            exact ⟨cur, hL, hb⟩
      obtain ⟨r0, h0, hnb0⟩ := hstep
      obtain ⟨r2, h2, h3⟩ :=
        foldl_mergeStep_keeps now M (mergeStep now L e) e.1 r0 h0
      refine ⟨r2, h2, ?_⟩
      rcases h3 with rfl | h3
      · exact hnb0
      · simp only [strictlyBetter] at hnb0 h3 ⊢
        omega
    · exact ih (mergeStep now L a) e he2

/-- A merge whose entries are all at least as good as what their keys
already hold is the identity. -/
lemma foldl_mergeStep_id (now : Int) (M : List (String × ScoreRec)) (acc : Ledger)
    (h : ∀ e ∈ M, ∃ r, acc e.1 = some r ∧ ¬ strictlyBetter e.2 r) :
    M.foldl (mergeStep now) acc = acc := by
  induction M with
  | nil => rfl
  | cons a M ih =>
    obtain ⟨r, hr, hnb⟩ := h a (List.mem_cons_self a M)
    have hnb2 : ¬ (a.2.moves < r.moves ∨ a.2.moves = r.moves ∧ a.2.time < r.time) := hnb
    have hstep : mergeStep now acc a = acc := by
      simp only [mergeStep, hr]
      rw [if_neg hnb2]
    rw [List.foldl_cons, hstep]
    exact ih (fun e he => h e (List.mem_cons_of_mem a he))

/-- C6: merging the same valid imported mapping twice produces exactly the
ledger of merging it once (the second pass finds every imported entry no
better than what its key already holds and changes nothing). -/
theorem C6_merge_idempotent (L : Ledger) (M : List (String × ScoreRec))
    (now now2 : Int)
    (hval : ∀ e ∈ M, validImportEntry e.1 e.2 = true) :
    mergeHighScores (mergeHighScores L M now) M now2 = mergeHighScores L M now :=
  foldl_mergeStep_id now2 M (mergeHighScores L M now) (merge_not_better L M now)

/-- Witness for C6 on a concrete ledger and import. -/
theorem C6_merge_idempotent_witness :
    (∀ e ∈ [(("3" : String), (⟨7, 10, none⟩ : ScoreRec))],
      validImportEntry e.1 e.2 = true) ∧
    mergeHighScores (mergeHighScores (fun _ => none) [("3", ⟨7, 10, none⟩)] 1)
        [("3", ⟨7, 10, none⟩)] 2 =
      mergeHighScores (fun _ => none) [("3", ⟨7, 10, none⟩)] 1 :=
  ⟨by decide,
   C6_merge_idempotent (fun _ => none) [("3", ⟨7, 10, none⟩)] 1 2 (by decide)⟩

lemma entryValid_eq_true_iff {k : String} {v : JVal} :
    entryValid k v = true ↔
      ∃ dc : Int, jsParseInt k = some dc ∧ 3 ≤ dc ∧ dc ≤ 10 ∧
        ∃ fs m t, v = JVal.obj fs ∧
          getField fs "moves" = some (.num m) ∧
          getField fs "time" = some (.num t) ∧
          getMinimalMoves dc.toNat ≤ m ∧ 0 ≤ t := by
  cases hp : jsParseInt k with
  | none => simp [entryValid, hp]
  | some dc =>
    simp only [entryValid, hp]
    by_cases hrange : dc < 3 ∨ 10 < dc
    · have hb : (decide (dc < 3) || decide (10 < dc)) = true := by
        rcases hrange with h | h <;> simp [h]
      rw [if_pos hb]
      constructor
      · intro h
        cases h
      · rintro ⟨dc2, hdc2, h3, h10, -⟩
        injection hdc2 with hdc2
        omega
    · have hb : (decide (dc < 3) || decide (10 < dc)) = false := by
        simp only [Bool.or_eq_false_iff, decide_eq_false_iff_not]
        omega
      rw [if_neg (by simp [hb])]
      cases v with
      | obj fs =>
        cases hm : getField fs "moves" with
        | none =>
          simp [hp, hm]
        | some mv =>
          cases ht : getField fs "time" with
          | none =>
            cases mv <;> simp [hp, hm, ht]
          | some tv =>
            cases mv <;> cases tv <;> simp [hp, hm, ht] <;> omega
      | num n => simp [hp]
      | str s => simp [hp]
      | arr els => simp [hp]
      | jbool b => simp [hp]
      | jnull => simp [hp]

lemma validateEntries_eq_true_iff {l : List (String × JVal)} :
    validateEntries l = true ↔ ∀ e ∈ l, entryValid e.1 e.2 = true := by
  induction l with
  | nil => simp [validateEntries]
  | cons a l ih => simp [validateEntries, Bool.and_eq_true, ih]

/-- C7 counterexample: the payload `{ "3.5": { moves: 7, time: 0 } }` has a
key that is not an integer in `[3,10]`, yet `validateAndExtractScores`
accepts it (JS `parseInt("3.5")` is `3`), contradicting the claim that any
such payload is rejected. -/
theorem C7_counterexample :
    validateAndExtractScores
        (.obj [("3.5", .obj [("moves", .num 7), ("time", .num 0)])]) =
      some (.obj [("3.5", .obj [("moves", .num 7), ("time", .num 0)])]) ∧
    ("3.5", JVal.obj [("moves", .num 7), ("time", .num 0)]) ∈
      toEntries (.obj [("3.5", .obj [("moves", .num 7), ("time", .num 0)])]) ∧
    ¬ ∃ n : Int, 3 ≤ n ∧ n ≤ 10 ∧ "3.5" = toString n := by
  refine ⟨rfl, by simp [toEntries], ?_⟩
  rintro ⟨n, h3, h10, he⟩
  interval_cases n <;> revert he <;> decide

/-- C7 (amended): `validateAndExtractScores` accepts either a bare mapping
or a wrapped `{version, scores}` object, and accepts exactly when every
entry satisfies: `parseInt(key)` is a number in `[3,10]` (so a key such as
`"3.5"`, whose leading integer prefix parses into range, is accepted even
though it is not an integer), the value is an object with numeric
`moves`/`time` fields, `moves ≥ minimalMoves(parseInt(key))` and
`time ≥ 0`; any failing entry rejects the whole payload and the ledger is
left unchanged. -/
theorem C7_import_validation_amended (data : JVal) (L : Ledger) (now : Int) :
    ((∃ sc, validateAndExtractScores data = some sc) ↔
      (∃ sc, extractScores data = some sc ∧
        ∀ e ∈ toEntries sc,
          ∃ dc : Int, jsParseInt e.1 = some dc ∧ 3 ≤ dc ∧ dc ≤ 10 ∧
            ∃ fs m t, e.2 = JVal.obj fs ∧
              getField fs "moves" = some (.num m) ∧
              getField fs "time" = some (.num t) ∧
              getMinimalMoves dc.toNat ≤ m ∧ 0 ≤ t)) ∧
    (validateAndExtractScores data = none → importHighScores L data now = L) := by
  constructor
  · cases hx : extractScores data with
    | none =>
      simp [validateAndExtractScores, hx]
    | some sc =>
      simp only [validateAndExtractScores, hx]
      by_cases hv : validateEntries (toEntries sc) = true
      · rw [if_pos hv]
        simp only [Option.some.injEq]
        constructor
        · rintro ⟨sc2, rfl⟩
          refine ⟨sc, rfl, ?_⟩
          intro e he
          exact entryValid_eq_true_iff.1 (validateEntries_eq_true_iff.1 hv e he)
        · intro _
          exact ⟨sc, rfl⟩
      · rw [if_neg hv]
        constructor
        · rintro ⟨sc2, h⟩
          cases h
        · rintro ⟨sc2, hsc2, hall⟩
          injection hsc2 with hsc2
          subst hsc2
          exact absurd
            (validateEntries_eq_true_iff.2
              (fun e he => entryValid_eq_true_iff.2 (hall e he))) hv
  · intro hnone
    simp [importHighScores, hnone]

/-- Witness for C7 (amended) on a concrete valid wrapped payload. -/
theorem C7_import_validation_amended_witness :
    ((∃ sc, validateAndExtractScores
        (.obj [("version", .num 1),
               ("scores", .obj [("4", .obj [("moves", .num 15), ("time", .num 3)])])]) =
      some sc) ↔
      (∃ sc, extractScores
          (.obj [("version", .num 1),
                 ("scores", .obj [("4", .obj [("moves", .num 15), ("time", .num 3)])])]) =
        some sc ∧
        ∀ e ∈ toEntries sc,
          ∃ dc : Int, jsParseInt e.1 = some dc ∧ 3 ≤ dc ∧ dc ≤ 10 ∧
            ∃ fs m t, e.2 = JVal.obj fs ∧
              getField fs "moves" = some (.num m) ∧
              getField fs "time" = some (.num t) ∧
              getMinimalMoves dc.toNat ≤ m ∧ 0 ≤ t)) ∧
    (validateAndExtractScores
        (.obj [("version", .num 1),
               ("scores", .obj [("4", .obj [("moves", .num 15), ("time", .num 3)])])]) = none →
      importHighScores (fun _ => none)
        (.obj [("version", .num 1),
               ("scores", .obj [("4", .obj [("moves", .num 15), ("time", .num 3)])])]) 5 =
        (fun _ => none)) :=
  C7_import_validation_amended _ (fun _ => none) 5

/-- The fetched leaderboard is sorted under `lbLe`. -/
lemma fetch_pairwise (fetched : Option (List LBEntry)) :
    (fetchGlobalLeaderboard fetched).Pairwise lbLe := by
  cases fetched with
  | none => simp [fetchGlobalLeaderboard]
  | some data =>
    simp only [fetchGlobalLeaderboard]
    exact List.Pairwise.sublist (List.take_sublist _ _)
      (List.sorted_insertionSort lbLe data)

/-- On a sorted list, the break-at-first-better rank loop computes the
1-based insertion position: one more than the number of entries sorting no
later than `(moves, time)`. -/
lemma findRank_sorted (m t : Int) (L : List LBEntry) (hs : L.Pairwise lbLe) :
    findRank m t L =
      1 + L.countP (fun e => decide (e.moves < m ∨ (e.moves = m ∧ e.time ≤ t))) := by
  induction L with
  | nil => simp [findRank]
  | cons s rest ih =>
    rcases List.pairwise_cons.1 hs with ⟨hall, htail⟩
    by_cases hlt : m < s.moves ∨ (m = s.moves ∧ t < s.time)
    · have hzero : rest.countP
          (fun e => decide (e.moves < m ∨ (e.moves = m ∧ e.time ≤ t))) = 0 := by
        rw [List.countP_eq_zero]
        intro e he
        have hle := hall e he
        simp only [lbLe] at hle
        simp only [decide_eq_true_eq, not_or, not_and, not_le]
        omega
      have hhead : (decide (s.moves < m ∨ (s.moves = m ∧ s.time ≤ t))) = false := by
        simp only [decide_eq_false_iff_not, not_or, not_and, not_le]
        omega
      simp only [findRank]
      rw [if_pos hlt, List.countP_cons, hzero, hhead, if_neg Bool.false_ne_true]
    · have hhead : (decide (s.moves < m ∨ (s.moves = m ∧ s.time ≤ t))) = true := by
        simp only [decide_eq_true_eq]
        omega
      simp only [findRank]
      rw [if_neg hlt, ih htail, List.countP_cons, hhead, if_pos rfl]
      omega

/-- C8: for every submission passing validation — if the fetched list has
fewer than 10 entries the run always qualifies at rank `length + 1`; if it
has exactly 10 entries it qualifies iff it sorts strictly before the last
(worst) entry under (moves asc, time asc), and the reported rank is the
1-based insertion position among the existing entries under that
ordering. -/
theorem C8_qualification_rank (dc m t : Int) (fetched : Option (List LBEntry))
    (hval : (validateLeaderboardSubmission dc m t).valid = true) :
    ((fetchGlobalLeaderboard fetched).length < 10 →
      checkLeaderboardQualification dc m t fetched =
        ⟨true, some ((fetchGlobalLeaderboard fetched).length + 1)⟩) ∧
    ((fetchGlobalLeaderboard fetched).length = 10 →
      ∀ worst, (fetchGlobalLeaderboard fetched).getLast? = some worst →
        ((checkLeaderboardQualification dc m t fetched).qualifies = true ↔
          (m < worst.moves ∨ (m = worst.moves ∧ t < worst.time))) ∧
        ((m < worst.moves ∨ (m = worst.moves ∧ t < worst.time)) →
          (checkLeaderboardQualification dc m t fetched).rank =
            some (1 + (fetchGlobalLeaderboard fetched).countP
              (fun e => decide (e.moves < m ∨ (e.moves = m ∧ e.time ≤ t)))))) := by
  have hnv : ¬ ((validateLeaderboardSubmission dc m t).valid = false) := by
    simp [hval]
  constructor
  · intro hlen
    simp only [checkLeaderboardQualification, LEADERBOARD_SIZE]
    rw [if_neg hnv, if_pos hlen]
  · intro hlen worst hworst
    have hnlt : ¬ ((fetchGlobalLeaderboard fetched).length < 10) := by
      omega
    constructor
    · constructor
      · intro hq
        by_cases hc : m < worst.moves ∨ (m = worst.moves ∧ t < worst.time)
        · exact hc
        · exfalso
          simp only [checkLeaderboardQualification, LEADERBOARD_SIZE] at hq
          rw [if_neg hnv, if_neg hnlt, hworst] at hq
          simp only [if_neg hc] at hq
          cases hq
      · intro hc
        simp only [checkLeaderboardQualification, LEADERBOARD_SIZE]
        rw [if_neg hnv, if_neg hnlt, hworst]
        simp only [if_pos hc]
    · intro hc
      simp only [checkLeaderboardQualification, LEADERBOARD_SIZE]
      rw [if_neg hnv, if_neg hnlt, hworst]
      simp only [if_pos hc]
      rw [findRank_sorted m t _ (fetch_pairwise fetched)]

/-- Witness for C8: a short fetched list, qualifying at rank 3. -/
theorem C8_qualification_rank_witness :
    (validateLeaderboardSubmission 3 8 100).valid = true ∧
    (((fetchGlobalLeaderboard
        (some [⟨"AAA", 7, 10, 0⟩, ⟨"BBB", 7, 5, 0⟩])).length < 10 →
      checkLeaderboardQualification 3 8 100
          (some [⟨"AAA", 7, 10, 0⟩, ⟨"BBB", 7, 5, 0⟩]) =
        ⟨true, some ((fetchGlobalLeaderboard
          (some [⟨"AAA", 7, 10, 0⟩, ⟨"BBB", 7, 5, 0⟩])).length + 1)⟩) ∧
     ((fetchGlobalLeaderboard
        (some [⟨"AAA", 7, 10, 0⟩, ⟨"BBB", 7, 5, 0⟩])).length = 10 →
      ∀ worst, (fetchGlobalLeaderboard
          (some [⟨"AAA", 7, 10, 0⟩, ⟨"BBB", 7, 5, 0⟩])).getLast? = some worst →
        ((checkLeaderboardQualification 3 8 100
            (some [⟨"AAA", 7, 10, 0⟩, ⟨"BBB", 7, 5, 0⟩])).qualifies = true ↔
          (8 < worst.moves ∨ (8 = worst.moves ∧ 100 < worst.time))) ∧
        ((8 < worst.moves ∨ (8 = worst.moves ∧ 100 < worst.time)) →
          (checkLeaderboardQualification 3 8 100
              (some [⟨"AAA", 7, 10, 0⟩, ⟨"BBB", 7, 5, 0⟩])).rank =
            some (1 + (fetchGlobalLeaderboard
                (some [⟨"AAA", 7, 10, 0⟩, ⟨"BBB", 7, 5, 0⟩])).countP
              (fun e => decide (e.moves < 8 ∨ (e.moves = 8 ∧ e.time ≤ 100))))))) :=
  ⟨by decide, C8_qualification_rank 3 8 100 _ (by decide)⟩

/-- C9 counterexample: with the leaderboard store unreachable the fetch
yields `[]`, and a valid submission QUALIFIES at rank 1 — the qualifier
does not treat the failure as "does not qualify". -/
theorem C9_counterexample :
    (validateLeaderboardSubmission 3 7 0).valid = true ∧
    checkLeaderboardQualification 3 7 0 none = ⟨true, some 1⟩ :=
  ⟨by decide, by decide⟩

/-- C9 (amended): when the remote store is unreachable the fetch returns
the empty leaderboard, so every submission passing validation qualifies,
at rank 1.  (In this embedding the qualifier is a pure function separate
from the game state and the score ledger, so gameplay and local scoring
are unaffected by construction.) -/
theorem C9_fetch_failure_amended (dc m t : Int)
    (hval : (validateLeaderboardSubmission dc m t).valid = true) :
    checkLeaderboardQualification dc m t none = ⟨true, some 1⟩ := by
  have hnv : ¬ ((validateLeaderboardSubmission dc m t).valid = false) := by
    simp [hval]
  simp only [checkLeaderboardQualification, fetchGlobalLeaderboard]
  rw [if_neg hnv]
  rfl

/-- Witness for C9 (amended) at a concrete valid submission. -/
theorem C9_fetch_failure_amended_witness :
    (validateLeaderboardSubmission 4 15 30).valid = true ∧
    checkLeaderboardQualification 4 15 30 none = ⟨true, some 1⟩ :=
  ⟨by decide, C9_fetch_failure_amended 4 15 30 (by decide)⟩

end Hanoi
